import Mathlib

/-!
Verification of the limpeza_david scanning/deletion engine
(src/app/cleaner/windows.py and src/app/utils.py).

The filesystem is modelled as a finite list of files (each carrying the
result of stat().st_size, where none models an OSError raised by stat,
and a flag saying whether unlink would succeed) together with a list of
existing directories.  A pathlib Path is modelled by its list of
components, as returned by Path.parts (the drive is an ordinary first
component, so Path("C:/Windows/Temp") is the list [C:, Windows, Temp]).
Path("") resolves to Path(".") whose parts tuple is empty, so the empty
string parses to the empty component list.  Component comparisons are
modelled case-sensitively; pathlib's Windows case folding only makes the
safety filter reject more paths and none of the developments below turn
on it, since every concrete path in this file is written in canonical
case.
-/

namespace Limpeza

/-- A filesystem path as its pathlib component tuple (Path.parts). -/
abbrev FPath := List String

/-- fnmatch-style glob matching of a single file name against a pattern.
The only wildcard the program ever uses is the star, which matches any
(possibly empty) run of characters; all other pattern characters are
literal. -/
def globMatch : List Char → List Char → Bool
  | [], s => s.isEmpty
  | '*' :: ps, s => s.tails.any (fun t => globMatch ps t)
  | c :: ps, s =>
    match s with
    | [] => false
    | d :: ds => (c == d) && globMatch ps ds

/-- A regular file: its path, the result of stat().st_size (none models an
OSError when reading the metadata), and whether os.unlink would succeed. -/
structure FSFile where
  path : FPath
  statSize : Option Nat
  removable : Bool
deriving DecidableEq, Repr

/-- A snapshot of the filesystem: the regular files and the directories. -/
structure FS where
  files : List FSFile
  dirs : List FPath
deriving DecidableEq, Repr

def isFile (fs : FS) (p : FPath) : Bool :=
  fs.files.any (fun f => f.path == p)

def isDir (fs : FS) (p : FPath) : Bool :=
  fs.dirs.any (fun d => d == p)

/-- Path.exists(): true for files and for directories. -/
def pathExists (fs : FS) (p : FPath) : Bool :=
  isFile fs p || isDir fs p

/-- stat().st_size of a file, none when stat raises. -/
def statOf (fs : FS) (p : FPath) : Option Nat :=
  (fs.files.find? (fun f => f.path == p)).bind (fun f => f.statSize)

/-- Every path the filesystem knows about, files first. -/
def allPaths (fs : FS) : List FPath :=
  fs.files.map (fun f => f.path) ++ fs.dirs

/-- d is a proper ancestor chain of p: d is a strict component-wise
ancestor of p (p lies strictly inside d). -/
def strictUnder (d p : FPath) : Bool :=
  d.isPrefixOf p && !(d == p)

/-- The name matched by glob patterns: the final path component. -/
def matchName (pat : String) (p : FPath) : Bool :=
  globMatch pat.data (p.getLastD "").data

/-- Path.rglob(pattern): every known path strictly below the directory
whose final component matches the pattern. -/
def rglob (fs : FS) (dir : FPath) (pat : String) : List FPath :=
  (allPaths fs).filter (fun p => strictUnder dir p && matchName pat p)

/-- Path.glob(pattern) (non-recursive): immediate children of the
directory whose final component matches the pattern. -/
def globDir (fs : FS) (dir : FPath) (pat : String) : List FPath :=
  (allPaths fs).filter
    (fun p => (p.length == dir.length + 1) && strictUnder dir p && matchName pat p)

/-- Path.iterdir(): the immediate children of a directory. -/
def iterdir (fs : FS) (dir : FPath) : List FPath :=
  (allPaths fs).filter (fun p => (p.length == dir.length + 1) && strictUnder dir p)

/-- utils.get_file_size: the stat size of a regular file (0 if stat
raises), the sum of the stat sizes of all contained regular files for a
directory (0 if any of those stats raises, since the exception aborts the
sum and is caught), and 0 for a path that exists in neither form. -/
def get_file_size (fs : FS) (p : FPath) : Nat :=
  if isFile fs p then
    match statOf fs p with
    | some n => n
    | none => 0
  else if isDir fs p then
    let inner := fs.files.filter (fun f => strictUnder p f.path)
    if inner.all (fun f => f.statSize.isSome) then
      (inner.map (fun f => f.statSize.getD 0)).sum
    else 0
  else 0

/-- The characters of the components of a path joined by the Windows
separator: str(path). -/
def joinPath : List (List Char) → List Char
  | [] => []
  | [c] => c
  | c :: c2 :: rest => c ++ '\\' :: joinPath (c2 :: rest)

def strOfPath (p : FPath) : String :=
  String.mk (joinPath (p.map String.data))

/-- Split a character list at every separator (inverse of joinPath on
separator-free components). -/
def splitPath : List Char → List (List Char)
  | [] => [[]]
  | c :: cs =>
    match splitPath cs with
    | [] => [[]]
    | h :: t => if c = '\\' then [] :: h :: t else (c :: h) :: t

/-- Path(s) as a component list.  Path("") is Path(".") whose parts tuple
is empty. -/
def pathOfString (s : String) : FPath :=
  if s = "" then [] else (splitPath s.data).map String.mk

/-- Index of the first occurrence of the dot in a character list. -/
def idxOfDot : List Char → Option Nat
  | [] => none
  | c :: cs => if c = '.' then some 0 else (idxOfDot cs).map (fun n => n + 1)

/-- Python's PurePath.suffix on a file name: the substring from the last
dot on, provided that dot is neither the first nor the last character;
otherwise the empty string. -/
def pySuffix (name : String) : String :=
  let cs := name.data
  match idxOfDot cs.reverse with
  | none => ""
  | some j =>
    let i := cs.length - 1 - j
    if 0 < i ∧ i < cs.length - 1 then String.mk (cs.drop i) else ""

def pathName (p : FPath) : String := p.getLastD ""

def pathSuffix (p : FPath) : String := pySuffix (pathName p)

/-- str.lower(), for the ASCII extension strings the program compares. -/
def lowerStr (s : String) : String := String.mk (s.data.map Char.toLower)

/-- needle appears as a contiguous run inside hay: the `in` operator on
strings. -/
def isSubstr (needle hay : List Char) : Bool :=
  hay.tails.any (fun t => needle.isPrefixOf t)

/-- The environment WindowsCleaner.__init__ reads: Path.home() and the
TEMP, LOCALAPPDATA and APPDATA environment variables (none models an
unset variable, so os.environ.get(name, fallback) yields the fallback). -/
structure Env where
  home : FPath
  tempVar : Option String
  localAppDataVar : Option String
  appDataVar : Option String
deriving DecidableEq, Repr

/-- The state WindowsCleaner.__init__ stores on self. -/
structure Config where
  user_home : FPath
  temp_dir : FPath
  local_app_data : FPath
  app_data : FPath
deriving DecidableEq, Repr

/-- WindowsCleaner.__init__ : each root is Path(os.environ.get(var, '')). -/
def initCleaner (e : Env) : Config :=
  { user_home := e.home
    temp_dir := pathOfString (e.tempVar.getD "")
    local_app_data := pathOfString (e.localAppDataVar.getD "")
    app_data := pathOfString (e.appDataVar.getD "") }

/-- The protected directory set built in WindowsCleaner.__init__. -/
def protected_dirs (cfg : Config) : List FPath :=
  [ ["C:", "Windows", "System32"]
  , ["C:", "Windows", "SysWOW64"]
  , ["C:", "Program Files"]
  , ["C:", "Program Files (x86)"]
  , cfg.user_home ++ ["Documents"]
  , cfg.user_home ++ ["Desktop"]
  , cfg.user_home ++ ["Pictures"]
  , cfg.user_home ++ ["Downloads"] ]

/-- The protected extension set built in WindowsCleaner.__init__. -/
def protected_extensions : List String :=
  [".exe", ".dll", ".sys", ".msi", ".bat", ".cmd", ".ps1",
   ".doc", ".docx", ".xls", ".xlsx", ".pdf", ".ppt", ".pptx"]

/-- path.parents: every proper ancestor of the path, the empty parts
tuple included. -/
def parentsOf (p : FPath) : List FPath :=
  (List.range p.length).map (fun k => p.take k)

/-- WindowsCleaner._is_safe_to_delete: false when the path equals or lies
under a protected directory, when its lowercased suffix is a protected
extension, or when its string form contains one of the two system-core
substrings; true otherwise.  (The try/except wrapper is fail-closed; the
pure model raises no exception.) -/
def is_safe_to_delete (cfg : Config) (p : FPath) : Bool :=
  if (protected_dirs cfg).any (fun d => p == d || (parentsOf p).contains d) then
    false
  else if protected_extensions.contains (lowerStr (pathSuffix p)) then
    false
  else if isSubstr "Windows\\System32".data (strOfPath p).data
       || isSubstr "Windows\\SysWOW64".data (strOfPath p).data then
    false
  else
    true

/-- WindowsCleaner._scan_directory.  The source accumulates the file list
and the running size in one loop over the glob results; appending the
string of every matched path and adding its size is exactly mapping and
summing over the matched list, which is how the loop is rendered here.
An empty pattern list is falsy in the source and selects the walk over
every file. -/
def scan_directory (cfg : Config) (fs : FS) (dir : FPath) (patterns : List String) :
    List String × Nat :=
  if !(pathExists fs dir) then ([], 0)
  else
    let cands :=
      if patterns.isEmpty then rglob fs dir "*"
      else patterns.flatMap (fun pat => rglob fs dir pat)
    let matched := cands.filter (fun p => isFile fs p && is_safe_to_delete cfg p)
    (matched.map strOfPath, (matched.map (get_file_size fs)).sum)

/-- The extend/ += accumulation the multi-root scanners perform over a
list of partial scan results. -/
def accumScans (rs : List (List String × Nat)) : List String × Nat :=
  rs.foldl (fun acc r => (acc.1 ++ r.1, acc.2 + r.2)) ([], 0)

def scan_temp_user (cfg : Config) (fs : FS) : List String × Nat :=
  scan_directory cfg fs cfg.temp_dir []

def scan_temp_windows (cfg : Config) (fs : FS) : List String × Nat :=
  scan_directory cfg fs ["C:", "Windows", "Temp"] []

def scan_prefetch (cfg : Config) (fs : FS) : List String × Nat :=
  scan_directory cfg fs ["C:", "Windows", "Prefetch"] ["*.pf"]

/-- WindowsCleaner._scan_browser_cache: the four Chromium-family cache
directories, then (when the Firefox profile root exists) the cache2
directory of every profile subdirectory. -/
def scan_browser_cache (cfg : Config) (fs : FS) : List String × Nat :=
  let cacheDirs : List FPath :=
    [ cfg.local_app_data ++ ["Google", "Chrome", "User Data", "Default", "Cache"]
    , cfg.local_app_data ++ ["Google", "Chrome", "User Data", "Default", "Code Cache"]
    , cfg.local_app_data ++ ["Microsoft", "Edge", "User Data", "Default", "Cache"]
    , cfg.local_app_data ++ ["Microsoft", "Edge", "User Data", "Default", "Code Cache"] ]
  let firefoxProfiles := cfg.local_app_data ++ ["Mozilla", "Firefox", "Profiles"]
  let ffScans :=
    if pathExists fs firefoxProfiles then
      ((iterdir fs firefoxProfiles).filter (fun pr => isDir fs pr)).map
        (fun pr => scan_directory cfg fs (pr ++ ["cache2"]) [])
    else []
  accumScans (cacheDirs.map (fun d => scan_directory cfg fs d []) ++ ffScans)

/-- WindowsCleaner._scan_windows_cache: thumbcache database files in the
Explorer cache directory (note the source applies only the safety filter
here, not an is_file check), then the icon cache file when it exists and
is safe. -/
def scan_windows_cache (cfg : Config) (fs : FS) : List String × Nat :=
  let explorerDir := cfg.local_app_data ++ ["Microsoft", "Windows", "Explorer"]
  let thumbs := (globDir fs explorerDir "thumbcache_*.db").filter
    (fun p => is_safe_to_delete cfg p)
  let iconCache := cfg.local_app_data ++ ["IconCache.db"]
  let icons :=
    if pathExists fs iconCache && is_safe_to_delete cfg iconCache then [iconCache]
    else []
  let all := thumbs ++ icons
  (all.map strOfPath, (all.map (get_file_size fs)).sum)

def scan_recent_files (cfg : Config) (fs : FS) : List String × Nat :=
  scan_directory cfg fs (cfg.app_data ++ ["Microsoft", "Windows", "Recent"]) ["*.lnk"]

def scan_log_files (cfg : Config) (fs : FS) : List String × Nat :=
  accumScans
    (([cfg.temp_dir, cfg.local_app_data, ["C:", "Windows", "Logs"]] : List FPath).map
      (fun loc => scan_directory cfg fs loc ["*.log"]))

def scan_old_files (cfg : Config) (fs : FS) : List String × Nat :=
  accumScans
    (([cfg.temp_dir, cfg.user_home, cfg.local_app_data] : List FPath).map
      (fun loc =>
        scan_directory cfg fs loc ["*.old", "*.bak", "*.tmp", "*.temp", "~*"]))

/-- WindowsCleaner.scan_category: the dict dispatch on the category id,
with ([], 0) for an id outside the table. -/
def scan_category (cfg : Config) (fs : FS) (category : String) : List String × Nat :=
  if category = "temp_user" then scan_temp_user cfg fs
  else if category = "temp_windows" then scan_temp_windows cfg fs
  else if category = "prefetch" then scan_prefetch cfg fs
  else if category = "browser_cache" then scan_browser_cache cfg fs
  else if category = "windows_cache" then scan_windows_cache cfg fs
  else if category = "recent_files" then scan_recent_files cfg fs
  else if category = "log_files" then scan_log_files cfg fs
  else if category = "old_files" then scan_old_files cfg fs
  else ([], 0)

/-- os.unlink removes every directory entry carrying the path. -/
def removeFileEntry (fs : FS) (p : FPath) : FS :=
  { fs with files := fs.files.filter (fun f => !(f.path == p)) }

/-- Whether unlink succeeds on the path: the removable flag of the file
entry, and failure when the path is not a regular file. -/
def fileRemovable (fs : FS) (p : FPath) : Bool :=
  ((fs.files.find? (fun f => f.path == p)).map (fun f => f.removable)).getD false

/-- utils.safe_remove_file: unlink the path when it exists, reporting
success; an OSError from unlink (or a missing path) reports failure and
leaves the filesystem unchanged. -/
def safe_remove_file (fs : FS) (p : FPath) : FS × Bool :=
  if pathExists fs p then
    if fileRemovable fs p then (removeFileEntry fs p, true) else (fs, false)
  else (fs, false)

/-- shutil.rmtree drops the whole subtree rooted at the path.  Per-entry
failures inside the tree (rmtree runs with ignore_errors=True) are not
modelled: the tree is removed wholesale. -/
def removeTree (fs : FS) (p : FPath) : FS :=
  { files := fs.files.filter (fun f => !(p.isPrefixOf f.path))
    dirs := fs.dirs.filter (fun d => !(p.isPrefixOf d)) }

/-- utils.safe_remove_dir: rmtree when the path exists, then report
whether the path is gone. -/
def safe_remove_dir (fs : FS) (p : FPath) : FS × Bool :=
  if pathExists fs p then
    let fs2 := removeTree fs p
    (fs2, !(pathExists fs2 p))
  else (fs, false)

/-- The state threaded through WindowsCleaner.clean_files: the mutating
filesystem and the removed / size_freed / errors counters.  The attempted
field is a specification ghost counter, absent from the source: it counts
how many times the loop reached an actual removal call (safe_remove_file
or safe_remove_dir), which is what the spec calls attempting a file. -/
structure CleanState where
  fs : FS
  removed : Nat
  size_freed : Nat
  errors : Nat
  attempted : Nat
deriving DecidableEq, Repr

/-- One iteration of the clean_files loop: skip silently when the path no
longer exists, count an error (without attempting removal) when the
safety filter rejects it, otherwise capture the size and attempt removal,
crediting removed/size_freed on success and errors on failure. -/
def cleanStep (cfg : Config) (st : CleanState) (file_path : String) : CleanState :=
  let path := pathOfString file_path
  if !(pathExists st.fs path) then st
  else if !(is_safe_to_delete cfg path) then { st with errors := st.errors + 1 }
  else
    let size := get_file_size st.fs path
    let res :=
      if isFile st.fs path then safe_remove_file st.fs path
      else safe_remove_dir st.fs path
    if res.2 then
      { st with fs := res.1, removed := st.removed + 1,
                size_freed := st.size_freed + size, attempted := st.attempted + 1 }
    else
      { st with fs := res.1, errors := st.errors + 1, attempted := st.attempted + 1 }

/-- WindowsCleaner.clean_files: the per-file loop over the input list,
starting from zeroed counters. -/
def clean_files (cfg : Config) (fs : FS) (files : List String) : CleanState :=
  files.foldl (cleanStep cfg) ⟨fs, 0, 0, 0, 0⟩

/-- A component that survives the str/Path round trip: non-empty and free
of the separator. -/
def goodName (s : String) : Bool :=
  !(s == "") && !(s.data.contains '\\')

def goodPath (p : FPath) : Bool :=
  !(p.isEmpty) && p.all goodName

/-- Well-formed filesystem snapshot: every known path survives the
str/Path round trip and no path is simultaneously a regular file and a
directory. -/
def wfFS (fs : FS) : Bool :=
  fs.files.all (fun f => goodPath f.path) && fs.dirs.all goodPath
    && fs.files.all (fun f => !(isDir fs f.path))

/-! Concrete environments and filesystem snapshots used by scenario
claims, witnesses and counterexamples. -/

/-- A representative environment: a user home and the three per-user
roots all set. -/
def demoEnv : Env :=
  { home := ["C:", "Users", "david"]
    tempVar := some "C:\\Temp"
    localAppDataVar := some "C:\\Users\\david\\AppData\\Local"
    appDataVar := some "C:\\Users\\david\\AppData\\Roaming" }

def demoCfg : Config := initCleaner demoEnv

/-- A temp directory holding one 2048-byte plain file and one 100-byte
executable. -/
def fsTemp : FS :=
  { files :=
      [ ⟨["C:", "Temp", "notes.txt"], some 2048, true⟩
      , ⟨["C:", "Temp", "app.exe"], some 100, true⟩ ]
    dirs := [["C:", "Temp"]] }

/-- A temp directory holding two removable plain files. -/
def fsClean : FS :=
  { files :=
      [ ⟨["C:", "Temp", "f1.txt"], some 10, true⟩
      , ⟨["C:", "Temp", "f2.txt"], some 20, true⟩ ]
    dirs := [["C:", "Temp"]] }

/-- A temp directory holding a single protected executable. -/
def fsExe : FS :=
  { files := [⟨["C:", "Temp", "a.exe"], some 5, true⟩]
    dirs := [["C:", "Temp"]] }

/-- An environment with the TEMP variable unset. -/
def envNoTemp : Env :=
  { home := ["C:", "Users", "david"]
    tempVar := none
    localAppDataVar := some "C:\\Users\\david\\AppData\\Local"
    appDataVar := some "C:\\Users\\david\\AppData\\Roaming" }

/-- A filesystem where the process working directory (the empty parts
tuple, i.e. Path('.')) exists and holds one file. -/
def fsCwd : FS :=
  { files := [⟨["junk.txt"], some 5, true⟩]
    dirs := [[]] }

/-- A temp directory holding one file whose stat raises. -/
def fsLocked : FS :=
  { files := [⟨["C:", "Temp", "locked.dat"], none, true⟩]
    dirs := [["C:", "Temp"]] }

/-- The shape every scanner result has: a list of matched paths, of which
the string list is the image under str and the total the sum of sizes,
every matched path having passed the safety filter and coming from the
scanned filesystem. -/
def ScanOut (cfg : Config) (fs : FS) (r : List String × Nat) : Prop :=
  ∃ ps : List FPath,
    r.1 = ps.map strOfPath ∧
    r.2 = (ps.map (get_file_size fs)).sum ∧
    ∀ p ∈ ps, is_safe_to_delete cfg p = true ∧ p ∈ allPaths fs

/-- fs1 holds no entry beyond those of fs2 (cleaning only shrinks the
filesystem). -/
def FSle (fs1 fs2 : FS) : Prop :=
  (∀ f ∈ fs1.files, f ∈ fs2.files) ∧ (∀ d ∈ fs1.dirs, d ∈ fs2.dirs)

/-! ### Basic filesystem lemmas -/

theorem mem_allPaths_of_pathExists {fs : FS} {p : FPath}
    (h : pathExists fs p = true) : p ∈ allPaths fs := by
  rw [pathExists, Bool.or_eq_true, isFile, isDir] at h
  simp only [List.any_eq_true, beq_iff_eq] at h
  rw [allPaths, List.mem_append, List.mem_map]
  rcases h with ⟨f, hf, rfl⟩ | ⟨d, hd, rfl⟩
  · exact Or.inl ⟨f, hf, rfl⟩
  · exact Or.inr hd

theorem mem_allPaths_of_rglob {fs : FS} {dir : FPath} {pat : String} {p : FPath}
    (h : p ∈ rglob fs dir pat) : p ∈ allPaths fs :=
  List.mem_of_mem_filter h

theorem mem_allPaths_of_globDir {fs : FS} {dir : FPath} {pat : String} {p : FPath}
    (h : p ∈ globDir fs dir pat) : p ∈ allPaths fs :=
  List.mem_of_mem_filter h

/-! ### Scanner results all have the ScanOut shape -/

theorem scanOut_scan_directory (cfg : Config) (fs : FS) (dir : FPath)
    (pats : List String) : ScanOut cfg fs (scan_directory cfg fs dir pats) := by
  rw [scan_directory]
  split
  · exact ⟨[], rfl, rfl, by simp⟩
  · refine ⟨_, rfl, rfl, ?_⟩
    intro p hp
    rw [List.mem_filter, Bool.and_eq_true] at hp
    refine ⟨hp.2.2, ?_⟩
    rcases hp with ⟨hmem, -⟩
    split at hmem
    · exact mem_allPaths_of_rglob hmem
    · rw [List.mem_flatMap] at hmem
      obtain ⟨pat, -, hm⟩ := hmem
      exact mem_allPaths_of_rglob hm

theorem scanOut_append {cfg : Config} {fs : FS} {a b : List String × Nat}
    (ha : ScanOut cfg fs a) (hb : ScanOut cfg fs b) :
    ScanOut cfg fs (a.1 ++ b.1, a.2 + b.2) := by
  obtain ⟨pa, ha1, ha2, ha3⟩ := ha
  obtain ⟨pb, hb1, hb2, hb3⟩ := hb
  refine ⟨pa ++ pb, ?_, ?_, ?_⟩
  · simp [ha1, hb1]
  · simp [ha2, hb2]
  · intro p hp
    rcases List.mem_append.mp hp with h | h
    · exact ha3 p h
    · exact hb3 p h

theorem scanOut_foldl {cfg : Config} {fs : FS} :
    ∀ (rs : List (List String × Nat)) (acc : List String × Nat),
      ScanOut cfg fs acc → (∀ r ∈ rs, ScanOut cfg fs r) →
      ScanOut cfg fs (rs.foldl (fun a r => (a.1 ++ r.1, a.2 + r.2)) acc)
  | [], acc, hacc, _ => by simpa using hacc
  | r :: rs, acc, hacc, h => by
    rw [List.foldl_cons]
    exact scanOut_foldl rs _ (scanOut_append hacc (h r (List.mem_cons_self _ _)))
      (fun x hx => h x (List.mem_cons_of_mem _ hx))

theorem scanOut_accumScans {cfg : Config} {fs : FS} {rs : List (List String × Nat)}
    (h : ∀ r ∈ rs, ScanOut cfg fs r) : ScanOut cfg fs (accumScans rs) := by
  rw [accumScans]
  exact scanOut_foldl rs ([], 0) ⟨[], rfl, rfl, by simp⟩ h

theorem scanOut_scan_temp_user (cfg : Config) (fs : FS) :
    ScanOut cfg fs (scan_temp_user cfg fs) :=
  scanOut_scan_directory ..

theorem scanOut_scan_temp_windows (cfg : Config) (fs : FS) :
    ScanOut cfg fs (scan_temp_windows cfg fs) :=
  scanOut_scan_directory ..

theorem scanOut_scan_prefetch (cfg : Config) (fs : FS) :
    ScanOut cfg fs (scan_prefetch cfg fs) :=
  scanOut_scan_directory ..

theorem scanOut_scan_recent_files (cfg : Config) (fs : FS) :
    ScanOut cfg fs (scan_recent_files cfg fs) :=
  scanOut_scan_directory ..

theorem scanOut_scan_browser_cache (cfg : Config) (fs : FS) :
    ScanOut cfg fs (scan_browser_cache cfg fs) := by
  rw [scan_browser_cache]
  apply scanOut_accumScans
  intro r hr
  rcases List.mem_append.mp hr with h | h
  · obtain ⟨d, -, rfl⟩ := List.mem_map.mp h
    exact scanOut_scan_directory ..
  · split at h
    · obtain ⟨pr, -, rfl⟩ := List.mem_map.mp h
      exact scanOut_scan_directory ..
    · cases h

theorem scanOut_scan_windows_cache (cfg : Config) (fs : FS) :
    ScanOut cfg fs (scan_windows_cache cfg fs) := by
  rw [scan_windows_cache]
  refine ⟨_, rfl, rfl, ?_⟩
  intro p hp
  rcases List.mem_append.mp hp with h | h
  · rw [List.mem_filter] at h
    exact ⟨h.2, mem_allPaths_of_globDir h.1⟩
  · split at h
    · rename_i hcond
      rw [Bool.and_eq_true] at hcond
      rw [List.mem_singleton] at h
      subst h
      exact ⟨hcond.2, mem_allPaths_of_pathExists hcond.1⟩
    · cases h

theorem scanOut_scan_log_files (cfg : Config) (fs : FS) :
    ScanOut cfg fs (scan_log_files cfg fs) := by
  rw [scan_log_files]
  apply scanOut_accumScans
  intro r hr
  obtain ⟨loc, -, rfl⟩ := List.mem_map.mp hr
  exact scanOut_scan_directory ..

theorem scanOut_scan_old_files (cfg : Config) (fs : FS) :
    ScanOut cfg fs (scan_old_files cfg fs) := by
  rw [scan_old_files]
  apply scanOut_accumScans
  intro r hr
  obtain ⟨loc, -, rfl⟩ := List.mem_map.mp hr
  exact scanOut_scan_directory ..

theorem scanOut_scan_category (cfg : Config) (fs : FS) (cat : String) :
    ScanOut cfg fs (scan_category cfg fs cat) := by
  rw [scan_category]
  split
  · exact scanOut_scan_temp_user ..
  split
  · exact scanOut_scan_temp_windows ..
  split
  · exact scanOut_scan_prefetch ..
  split
  · exact scanOut_scan_browser_cache ..
  split
  · exact scanOut_scan_windows_cache ..
  split
  · exact scanOut_scan_recent_files ..
  split
  · exact scanOut_scan_log_files ..
  split
  · exact scanOut_scan_old_files ..
  exact ⟨[], rfl, rfl, by simp⟩

/-! ### The str / Path round trip on well-formed paths -/

theorem splitPath_ne_nil : ∀ cs : List Char, splitPath cs ≠ []
  | [] => by simp [splitPath]
  | c :: cs => by
    rw [splitPath]
    cases h : splitPath cs with
    | nil => simp
    | cons hd tl => by_cases hc : c = '\\' <;> simp [hc]

theorem splitPath_no_sep : ∀ (cs : List Char), (∀ c ∈ cs, c ≠ '\\') →
    splitPath cs = [cs]
  | [], _ => rfl
  | c :: cs, h => by
    have hc : c ≠ '\\' := h c (List.mem_cons_self _ _)
    have ih := splitPath_no_sep cs (fun x hx => h x (List.mem_cons_of_mem _ hx))
    rw [splitPath, ih]
    simp [hc]

theorem splitPath_sep_append : ∀ {a b : List Char}, (∀ c ∈ a, c ≠ '\\') →
    splitPath (a ++ '\\' :: b) = a :: splitPath b
  | [], b, _ => by
    rw [List.nil_append, splitPath]
    cases h : splitPath b with
    | nil => exact absurd h (splitPath_ne_nil b)
    | cons hd tl => simp
  | c :: a, b, h => by
    have hc : c ≠ '\\' := h c (List.mem_cons_self _ _)
    have ih := splitPath_sep_append (a := a) (b := b)
      (fun x hx => h x (List.mem_cons_of_mem _ hx))
    rw [List.cons_append, splitPath, ih]
    simp [hc]

theorem splitPath_joinPath : ∀ {p : List (List Char)}, p ≠ [] →
    (∀ c ∈ p, ∀ ch ∈ c, ch ≠ '\\') → splitPath (joinPath p) = p
  | [], hne, _ => absurd rfl hne
  | [x], _, h => by
    rw [joinPath]
    exact splitPath_no_sep x (h x (List.mem_cons_self _ _))
  | x :: y :: rest, _, h => by
    rw [joinPath, splitPath_sep_append (h x (List.mem_cons_self _ _))]
    rw [splitPath_joinPath (p := y :: rest) (by simp)
      (fun c hc => h c (List.mem_cons_of_mem _ hc))]

theorem goodPath_ne_nil {p : FPath} (h : goodPath p = true) : p ≠ [] := by
  rw [goodPath, Bool.and_eq_true, Bool.not_eq_true'] at h
  intro hp
  subst hp
  simp at h

theorem goodPath_names {p : FPath} (h : goodPath p = true) :
    ∀ x ∈ p, x ≠ "" ∧ ∀ ch ∈ x.data, ch ≠ '\\' := by
  rw [goodPath, Bool.and_eq_true, List.all_eq_true] at h
  intro x hx
  have hg := h.2 x hx
  rw [goodName, Bool.and_eq_true, Bool.not_eq_true', Bool.not_eq_true'] at hg
  refine ⟨by simpa using hg.1, ?_⟩
  intro ch hch hsep
  subst hsep
  have : x.data.contains '\\' = true := by
    rw [List.contains, List.elem_iff]
    exact hch
  rw [hg.2] at this
  cases this

theorem strOfPath_ne_empty {p : FPath} (h : goodPath p = true) :
    strOfPath p ≠ "" := by
  obtain ⟨x, rest, rfl⟩ : ∃ x rest, p = x :: rest := by
    cases p with
    | nil => exact absurd rfl (goodPath_ne_nil h)
    | cons x rest => exact ⟨x, rest, rfl⟩
  have hx : x ≠ "" := (goodPath_names h x (List.mem_cons_self _ _)).1
  rw [strOfPath]
  intro heq
  have hjoin : joinPath ((x :: rest).map String.data) = [] := by
    have := congrArg String.data heq
    simpa using this
  cases rest with
  | nil =>
    rw [List.map_cons, List.map_nil, joinPath] at hjoin
    exact hx (String.ext (by rw [hjoin]))
  | cons y rest2 =>
    rw [List.map_cons, List.map_cons, joinPath] at hjoin
    rcases List.append_eq_nil.mp hjoin with ⟨-, h2⟩
    cases h2

theorem pathOfString_strOfPath {p : FPath} (h : goodPath p = true) :
    pathOfString (strOfPath p) = p := by
  rw [pathOfString, if_neg (strOfPath_ne_empty h)]
  have hdata : (strOfPath p).data = joinPath (p.map String.data) := rfl
  rw [hdata]
  rw [splitPath_joinPath (by simpa using goodPath_ne_nil h) ?names]
  case names =>
    intro c hc
    obtain ⟨x, hx, rfl⟩ := List.mem_map.mp hc
    exact (goodPath_names h x hx).2
  rw [List.map_map]
  conv_rhs => rw [← List.map_id p]
  exact List.map_congr_left (fun x _ => rfl)

theorem wf_goodPath {fs : FS} {p : FPath} (hwf : wfFS fs = true)
    (hp : p ∈ allPaths fs) : goodPath p = true := by
  rw [wfFS, Bool.and_eq_true, Bool.and_eq_true] at hwf
  rw [allPaths, List.mem_append] at hp
  rcases hp with h | h
  · obtain ⟨f, hf, rfl⟩ := List.mem_map.mp h
    exact List.all_eq_true.mp hwf.1.1 f hf
  · exact List.all_eq_true.mp hwf.1.2 p h

/-! ### Lemmas about the cleaning loop -/

theorem FSle_refl (fs : FS) : FSle fs fs :=
  ⟨fun _ hf => hf, fun _ hd => hd⟩

theorem FSle_trans {a b c : FS} (h1 : FSle a b) (h2 : FSle b c) : FSle a c :=
  ⟨fun f hf => h2.1 f (h1.1 f hf), fun d hd => h2.2 d (h1.2 d hd)⟩

theorem FSle_removeFileEntry (fs : FS) (p : FPath) :
    FSle (removeFileEntry fs p) fs :=
  ⟨fun _ hf => List.mem_of_mem_filter hf, fun _ hd => hd⟩

theorem FSle_removeTree (fs : FS) (p : FPath) : FSle (removeTree fs p) fs :=
  ⟨fun _ hf => List.mem_of_mem_filter hf, fun _ hd => List.mem_of_mem_filter hd⟩

theorem FSle_safe_remove_file (fs : FS) (p : FPath) :
    FSle (safe_remove_file fs p).1 fs := by
  rw [safe_remove_file]
  split
  · split
    · exact FSle_removeFileEntry ..
    · exact FSle_refl ..
  · exact FSle_refl ..

theorem FSle_safe_remove_dir (fs : FS) (p : FPath) :
    FSle (safe_remove_dir fs p).1 fs := by
  rw [safe_remove_dir]
  split
  · exact FSle_removeTree ..
  · exact FSle_refl ..

theorem FSle_cleanStep (cfg : Config) (st : CleanState) (s : String) :
    FSle (cleanStep cfg st s).fs st.fs := by
  simp only [cleanStep]
  split
  · exact FSle_refl _
  split
  · exact FSle_refl _
  split <;> split <;>
    first
      | exact FSle_safe_remove_file ..
      | exact FSle_safe_remove_dir ..

theorem FSle_foldl (cfg : Config) :
    ∀ (l : List String) (st : CleanState),
      FSle ((l.foldl (cleanStep cfg) st).fs) st.fs
  | [], _ => FSle_refl _
  | s :: l, st =>
    FSle_trans (FSle_foldl cfg l (cleanStep cfg st s)) (FSle_cleanStep cfg st s)

theorem isDir_le {fs1 fs2 : FS} {p : FPath} (hle : FSle fs1 fs2)
    (h : isDir fs1 p = true) : isDir fs2 p = true := by
  rw [isDir, List.any_eq_true] at h ⊢
  obtain ⟨d, hd, hdp⟩ := h
  exact ⟨d, hle.2 d hd, hdp⟩

theorem pathExists_le {fs1 fs2 : FS} {p : FPath} (hle : FSle fs1 fs2)
    (h : pathExists fs1 p = true) : pathExists fs2 p = true := by
  rw [pathExists, Bool.or_eq_true, isFile, isDir] at h ⊢
  simp only [List.any_eq_true] at h ⊢
  rcases h with ⟨f, hf, hfp⟩ | ⟨d, hd, hdp⟩
  · exact Or.inl ⟨f, hle.1 f hf, hfp⟩
  · exact Or.inr ⟨d, hle.2 d hd, hdp⟩

theorem pathExists_mono {fs1 fs2 : FS} {p : FPath} (hle : FSle fs1 fs2)
    (h : pathExists fs2 p = false) : pathExists fs1 p = false := by
  cases hh : pathExists fs1 p
  · rfl
  · rw [pathExists_le hle hh] at h
    cases h

theorem wfFS_mono {fs1 fs2 : FS} (hle : FSle fs1 fs2) (h : wfFS fs2 = true) :
    wfFS fs1 = true := by
  rw [wfFS, Bool.and_eq_true, Bool.and_eq_true, List.all_eq_true, List.all_eq_true,
    List.all_eq_true] at h ⊢
  refine ⟨⟨fun f hf => h.1.1 f (hle.1 f hf), fun d hd => h.1.2 d (hle.2 d hd)⟩, ?_⟩
  intro f hf
  have h2 := h.2 f (hle.1 f hf)
  rw [Bool.not_eq_true'] at h2 ⊢
  cases hd : isDir fs1 f.path
  · rfl
  · rw [isDir_le hle hd] at h2
    cases h2

theorem wf_not_dir {fs : FS} {p : FPath} (hwf : wfFS fs = true)
    (hf : isFile fs p = true) : isDir fs p = false := by
  rw [wfFS, Bool.and_eq_true, Bool.and_eq_true, List.all_eq_true, List.all_eq_true,
    List.all_eq_true] at hwf
  rw [isFile, List.any_eq_true] at hf
  obtain ⟨f, hmem, hfp⟩ := hf
  rw [beq_iff_eq] at hfp
  subst hfp
  have h2 := hwf.2 f hmem
  rwa [Bool.not_eq_true'] at h2

theorem isFile_removeFileEntry (fs : FS) (p : FPath) :
    isFile (removeFileEntry fs p) p = false := by
  rw [isFile, removeFileEntry, List.any_eq_false]
  intro f hf
  rw [List.mem_filter] at hf
  simpa using hf.2

theorem pathExists_removeFileEntry {fs : FS} {p : FPath}
    (hwf : wfFS fs = true) (hf : isFile fs p = true) :
    pathExists (removeFileEntry fs p) p = false := by
  rw [pathExists, isFile_removeFileEntry]
  have hd : isDir (removeFileEntry fs p) p = isDir fs p := rfl
  rw [hd, wf_not_dir hwf hf]
  rfl

theorem cleanStep_skip {cfg : Config} {st : CleanState} {s : String}
    (hex : pathExists st.fs (pathOfString s) = false) :
    cleanStep cfg st s = st := by
  simp [cleanStep, hex]

theorem cleanStep_rejected {cfg : Config} {st : CleanState} {s : String}
    (hex : pathExists st.fs (pathOfString s) = true)
    (hsafe : is_safe_to_delete cfg (pathOfString s) = false) :
    cleanStep cfg st s = { st with errors := st.errors + 1 } := by
  simp [cleanStep, hex, hsafe]

theorem cleanStep_errors_le (cfg : Config) (st : CleanState) (s : String) :
    st.errors ≤ (cleanStep cfg st s).errors := by
  simp only [cleanStep]
  split
  · exact Nat.le_refl _
  split
  · exact Nat.le_succ _
  split <;> split <;> simp

theorem foldl_errors_le (cfg : Config) :
    ∀ (l : List String) (st : CleanState),
      st.errors ≤ (l.foldl (cleanStep cfg) st).errors
  | [], _ => Nat.le_refl _
  | s :: l, st =>
    Nat.le_trans (cleanStep_errors_le cfg st s)
      (foldl_errors_le cfg l (cleanStep cfg st s))

/-- A step of the cleaning loop that did not report an error leaves its
path nonexistent: either the path was already gone, or the removal
attempt succeeded and deleted it. -/
theorem cleanStep_gone {cfg : Config} {st : CleanState} {s : String}
    (hwf : wfFS st.fs = true)
    (herr : (cleanStep cfg st s).errors = st.errors) :
    pathExists (cleanStep cfg st s).fs (pathOfString s) = false := by
  cases hex : pathExists st.fs (pathOfString s) with
  | false =>
    rw [cleanStep_skip hex]
    exact hex
  | true =>
    cases hsafe : is_safe_to_delete cfg (pathOfString s) with
    | false =>
      rw [cleanStep_rejected hex hsafe] at herr
      exact absurd herr (by simp)
    | true =>
      cases hf : isFile st.fs (pathOfString s) with
      | true =>
        cases hr : fileRemovable st.fs (pathOfString s) with
        | true =>
          have hres : cleanStep cfg st s =
              { st with fs := removeFileEntry st.fs (pathOfString s),
                        removed := st.removed + 1,
                        size_freed := st.size_freed + get_file_size st.fs (pathOfString s),
                        attempted := st.attempted + 1 } := by
            simp [cleanStep, hex, hsafe, hf, safe_remove_file, hr]
          rw [hres]
          exact pathExists_removeFileEntry hwf hf
        | false =>
          have hres : cleanStep cfg st s =
              { st with fs := st.fs, errors := st.errors + 1,
                        attempted := st.attempted + 1 } := by
            simp [cleanStep, hex, hsafe, hf, safe_remove_file, hr]
          rw [hres] at herr
          exact absurd herr (by simp)
      | false =>
        cases hpe : pathExists (removeTree st.fs (pathOfString s)) (pathOfString s) with
        | false =>
          have hres : cleanStep cfg st s =
              { st with fs := removeTree st.fs (pathOfString s),
                        removed := st.removed + 1,
                        size_freed := st.size_freed + get_file_size st.fs (pathOfString s),
                        attempted := st.attempted + 1 } := by
            simp [cleanStep, hex, hsafe, hf, safe_remove_dir, hpe]
          rw [hres]
          exact hpe
        | true =>
          have hres : cleanStep cfg st s =
              { st with fs := removeTree st.fs (pathOfString s),
                        errors := st.errors + 1,
                        attempted := st.attempted + 1 } := by
            simp [cleanStep, hex, hsafe, hf, safe_remove_dir, hpe]
          rw [hres] at herr
          exact absurd herr (by simp)

/-- When the whole cleaning pass reported no new error, none of the
listed paths exists in the final filesystem. -/
theorem clean_no_error_gone (cfg : Config) :
    ∀ (l : List String) (st : CleanState), wfFS st.fs = true →
      (l.foldl (cleanStep cfg) st).errors = st.errors →
      ∀ s ∈ l, pathExists ((l.foldl (cleanStep cfg) st).fs) (pathOfString s) = false := by
  intro l
  induction l with
  | nil => intro st _ _ s hs; cases hs
  | cons s0 l ih =>
    intro st hwf herr s hs
    rw [List.foldl_cons] at herr ⊢
    have hstep_le := cleanStep_errors_le cfg st s0
    have hfold_le := foldl_errors_le cfg l (cleanStep cfg st s0)
    have heq : (cleanStep cfg st s0).errors = st.errors := by omega
    have hwf1 : wfFS (cleanStep cfg st s0).fs = true :=
      wfFS_mono (FSle_cleanStep cfg st s0) hwf
    rcases List.mem_cons.mp hs with rfl | hs'
    · have hgone := cleanStep_gone hwf heq
      exact pathExists_mono (FSle_foldl cfg l (cleanStep cfg st s)) hgone
    · exact ih (cleanStep cfg st s0) hwf1 (herr.trans heq.symm) s hs'

/-- Cleaning a list none of whose paths exists is a no-op. -/
theorem clean_all_gone (cfg : Config) :
    ∀ (l : List String) (st : CleanState),
      (∀ s ∈ l, pathExists st.fs (pathOfString s) = false) →
      l.foldl (cleanStep cfg) st = st
  | [], _, _ => rfl
  | s :: l, st, h => by
    rw [List.foldl_cons, cleanStep_skip (h s (List.mem_cons_self _ _))]
    exact clean_all_gone cfg l st (fun x hx => h x (List.mem_cons_of_mem _ hx))

theorem cleanStep_counts (cfg : Config) (st : CleanState) (s : String) :
    (cleanStep cfg st s).removed + (cleanStep cfg st s).errors
        ≤ st.removed + st.errors + 1 ∧
    (cleanStep cfg st s).attempted ≤ st.attempted + 1 := by
  simp only [cleanStep]
  split
  · constructor <;> omega
  split
  · constructor <;> (dsimp; omega)
  split <;> split <;> constructor <;> (dsimp; omega)

theorem clean_counts (cfg : Config) :
    ∀ (l : List String) (st : CleanState),
      (l.foldl (cleanStep cfg) st).removed + (l.foldl (cleanStep cfg) st).errors
          ≤ st.removed + st.errors + l.length ∧
      (l.foldl (cleanStep cfg) st).attempted ≤ st.attempted + l.length
  | [], st => by simp
  | s :: l, st => by
    rw [List.foldl_cons]
    have h1 := cleanStep_counts cfg st s
    have h2 := clean_counts cfg l (cleanStep cfg st s)
    simp only [List.length_cons]
    exact ⟨by omega, by omega⟩

/-! ### The claims -/

/-- C1: every path in a scan_category result is the string form of a path
that satisfied is_safe_to_delete at scan time, and clean_files
re-validates each input path against is_safe_to_delete: a path that still
exists but now fails the filter is not removed (the state changes only by
incrementing error_count). -/
theorem C1_safety_filter_invariant :
    (∀ (cfg : Config) (fs : FS) (cat : String) (s : String),
        s ∈ (scan_category cfg fs cat).1 →
        ∃ p : FPath, s = strOfPath p ∧ is_safe_to_delete cfg p = true) ∧
    (∀ (cfg : Config) (st : CleanState) (s : String),
        pathExists st.fs (pathOfString s) = true →
        is_safe_to_delete cfg (pathOfString s) = false →
        cleanStep cfg st s = { st with errors := st.errors + 1 }) := by
  constructor
  · intro cfg fs cat s hs
    obtain ⟨ps, h1, -, h3⟩ := scanOut_scan_category cfg fs cat
    rw [h1] at hs
    obtain ⟨p, hp, rfl⟩ := List.mem_map.mp hs
    exact ⟨p, rfl, (h3 p hp).1⟩
  · intro cfg st s hex hsafe
    exact cleanStep_rejected hex hsafe

/-- Witness for C1: a scanned path of the demo filesystem did pass the
filter, and cleaning the protected executable increments only errors. -/
theorem C1_witness :
    (∃ p : FPath, "C:\\Temp\\notes.txt" = strOfPath p ∧
        is_safe_to_delete demoCfg p = true) ∧
    cleanStep demoCfg ⟨fsExe, 0, 0, 0, 0⟩ "C:\\Temp\\a.exe" =
      { fs := fsExe, removed := 0, size_freed := 0, errors := 0 + 1, attempted := 0 } :=
  ⟨C1_safety_filter_invariant.1 demoCfg fsTemp "temp_user" _ (by decide),
   C1_safety_filter_invariant.2 demoCfg ⟨fsExe, 0, 0, 0, 0⟩ "C:\\Temp\\a.exe"
     (by decide) (by decide)⟩

/-- C2: clean_files processes every element of its input list, attempting
each at most once, so removed + errors never exceeds the list length (and
neither does the number of removal attempts). -/
theorem C2_clean_files_total (cfg : Config) (fs : FS) (files : List String) :
    (clean_files cfg fs files).removed + (clean_files cfg fs files).errors
        ≤ files.length ∧
    (clean_files cfg fs files).attempted ≤ files.length := by
  have h := clean_counts cfg files ⟨fs, 0, 0, 0, 0⟩
  rw [clean_files]
  dsimp at h
  exact ⟨by omega, by omega⟩

/-- C3: a path equal to, or nested under, any configured protected
directory is never safe to delete, whatever its extension. -/
theorem C3_protected_dir_unsafe (cfg : Config) (p d : FPath)
    (hd : d ∈ protected_dirs cfg) (hpre : d.isPrefixOf p = true) :
    is_safe_to_delete cfg p = false := by
  have hC : (protected_dirs cfg).any
      (fun e => p == e || (parentsOf p).contains e) = true := by
    rw [List.any_eq_true]
    refine ⟨d, hd, ?_⟩
    rw [Bool.or_eq_true]
    by_cases hdp : p = d
    · exact Or.inl (by rw [beq_iff_eq]; exact hdp)
    · right
      have hpre' : d <+: p := List.isPrefixOf_iff_prefix.mp hpre
      have hlt : d.length < p.length := by
        rcases Nat.lt_or_ge d.length p.length with h | h
        · exact h
        · exfalso
          have hlen : d.length = p.length :=
            Nat.le_antisymm (List.IsPrefix.length_le hpre') h
          exact hdp (List.IsPrefix.eq_of_length hpre' hlen).symm
      have htake : p.take d.length = d := (List.prefix_iff_eq_take.mp hpre').symm
      rw [List.contains, List.elem_iff, parentsOf]
      exact List.mem_map.mpr ⟨d.length, List.mem_range.mpr hlt, htake⟩
  rw [is_safe_to_delete, if_pos hC]

/-- Witness for C3: a path below C:/Windows/System32 is rejected. -/
theorem C3_witness :
    (["C:", "Windows", "System32"] : FPath) ∈ protected_dirs demoCfg ∧
    (["C:", "Windows", "System32"] : FPath).isPrefixOf
        ["C:", "Windows", "System32", "drivers", "etc"] = true ∧
    is_safe_to_delete demoCfg ["C:", "Windows", "System32", "drivers", "etc"] = false :=
  ⟨by decide, by decide,
   C3_protected_dir_unsafe demoCfg ["C:", "Windows", "System32", "drivers", "etc"]
     ["C:", "Windows", "System32"] (by decide) (by decide)⟩

/-- C4: a path whose lowercased extension is protected is never safe to
delete, even outside the protected directories; and scanning the demo
temp directory holding one 2048-byte plain file and one 100-byte
executable returns exactly the plain file with total 2048. -/
theorem C4_protected_extension_unsafe :
    (∀ (cfg : Config) (p : FPath),
        protected_extensions.contains (lowerStr (pathSuffix p)) = true →
        is_safe_to_delete cfg p = false) ∧
    scan_category demoCfg fsTemp "temp_user" = (["C:\\Temp\\notes.txt"], 2048) := by
  constructor
  · intro cfg p hext
    rw [is_safe_to_delete]
    by_cases h1 : ((protected_dirs cfg).any
        fun d => p == d || (parentsOf p).contains d) = true
    · rw [if_pos h1]
    · rw [if_neg h1, if_pos hext]
  · decide

/-- Witness for C4: an uppercase installer extension outside every
protected directory is still rejected. -/
theorem C4_witness :
    protected_extensions.contains
        (lowerStr (pathSuffix (["D:", "tools", "setup.MSI"] : FPath))) = true ∧
    is_safe_to_delete demoCfg ["D:", "tools", "setup.MSI"] = false :=
  ⟨by decide, C4_protected_extension_unsafe.1 demoCfg _ (by decide)⟩

/-- C5: for every category, the total returned by scan_category is
exactly the sum of get_file_size over the paths of the returned list. -/
theorem C5_total_size_exact (cfg : Config) (fs : FS) (cat : String)
    (hwf : wfFS fs = true) :
    (scan_category cfg fs cat).2 =
      ((scan_category cfg fs cat).1.map
        (fun s => get_file_size fs (pathOfString s))).sum := by
  obtain ⟨ps, h1, h2, h3⟩ := scanOut_scan_category cfg fs cat
  rw [h1, h2, List.map_map]
  congr 1
  apply List.map_congr_left
  intro p hp
  have hg : goodPath p = true := wf_goodPath hwf (h3 p hp).2
  show get_file_size fs p = get_file_size fs (pathOfString (strOfPath p))
  rw [pathOfString_strOfPath hg]

/-- Witness for C5: the demo temp scan sums to its reported total. -/
theorem C5_witness :
    wfFS fsTemp = true ∧
    (scan_category demoCfg fsTemp "temp_user").2 =
      ((scan_category demoCfg fsTemp "temp_user").1.map
        (fun s => get_file_size fsTemp (pathOfString s))).sum :=
  ⟨by decide, C5_total_size_exact demoCfg fsTemp "temp_user" (by decide)⟩

/-- C6: a listed path that no longer exists at delete time is skipped
silently, counted neither as removed nor as an error; cleaning three
files of which one was externally deleted reports removed=2, errors=0. -/
theorem C6_missing_path_skipped :
    (∀ (cfg : Config) (st : CleanState) (s : String),
        pathExists st.fs (pathOfString s) = false → cleanStep cfg st s = st) ∧
    (clean_files demoCfg fsClean
        ["C:\\Temp\\f1.txt", "C:\\Temp\\f2.txt", "C:\\Temp\\gone.txt"]).removed = 2 ∧
    (clean_files demoCfg fsClean
        ["C:\\Temp\\f1.txt", "C:\\Temp\\f2.txt", "C:\\Temp\\gone.txt"]).errors = 0 :=
  ⟨fun _ _ _ hex => cleanStep_skip hex, by decide, by decide⟩

/-- Witness for C6: the missing demo path leaves the clean state
untouched. -/
theorem C6_witness :
    pathExists fsClean (pathOfString "C:\\Temp\\gone.txt") = false ∧
    cleanStep demoCfg ⟨fsClean, 0, 0, 0, 0⟩ "C:\\Temp\\gone.txt" =
      ⟨fsClean, 0, 0, 0, 0⟩ :=
  ⟨by decide,
   C6_missing_path_skipped.1 demoCfg ⟨fsClean, 0, 0, 0, 0⟩ "C:\\Temp\\gone.txt"
     (by decide)⟩

/-- C7: a category id outside the fixed eight-entry table yields ([], 0)
and no error. -/
theorem C7_unknown_category_empty (cfg : Config) (fs : FS) (cat : String)
    (h : cat ∉ ["temp_user", "temp_windows", "prefetch", "browser_cache",
                "windows_cache", "recent_files", "log_files", "old_files"]) :
    scan_category cfg fs cat = ([], 0) := by
  simp only [List.mem_cons, List.not_mem_nil, or_false, not_or] at h
  obtain ⟨h1, h2, h3, h4, h5, h6, h7, h8⟩ := h
  rw [scan_category, if_neg h1, if_neg h2, if_neg h3, if_neg h4, if_neg h5,
    if_neg h6, if_neg h7, if_neg h8]

/-- Witness for C7: an id absent from the table scans to ([], 0). -/
theorem C7_witness :
    "recycle_bin" ∉ ["temp_user", "temp_windows", "prefetch", "browser_cache",
                     "windows_cache", "recent_files", "log_files", "old_files"] ∧
    scan_category demoCfg fsTemp "recycle_bin" = ([], 0) :=
  ⟨by decide, C7_unknown_category_empty demoCfg fsTemp "recycle_bin" (by decide)⟩

/-- Counterexample to C8 as stated: with the TEMP variable unset the temp
root resolves to Path('.') (the empty parts tuple), which exists as the
working directory, and the user-temp scan returns its contents instead of
the empty result the claim promises for an absent root value. -/
theorem C8_counterexample :
    envNoTemp.tempVar = none ∧
    (initCleaner envNoTemp).temp_dir = ([] : FPath) ∧
    pathExists fsCwd (initCleaner envNoTemp).temp_dir = true ∧
    scan_category (initCleaner envNoTemp) fsCwd "temp_user" = (["junk.txt"], 5) ∧
    scan_category (initCleaner envNoTemp) fsCwd "temp_user" ≠ ([], 0) :=
  ⟨rfl, by decide, by decide, by decide, by decide⟩

/-- C8 as amended: a scan whose root directory does not exist yields
([], 0) rather than failing.  (An unset environment variable instead
makes the root Path('.'), the working directory, which is scanned
normally when it exists.) -/
theorem C8_amended_nonexistent_root (cfg : Config) (fs : FS) (dir : FPath)
    (pats : List String) (h : pathExists fs dir = false) :
    scan_directory cfg fs dir pats = ([], 0) := by
  rw [scan_directory, if_pos (by rw [h]; rfl)]

/-- Witness for C8: the demo filesystem has no C:/Windows/Temp, and the
corresponding scan is empty. -/
theorem C8_witness :
    pathExists fsTemp ["C:", "Windows", "Temp"] = false ∧
    scan_directory demoCfg fsTemp ["C:", "Windows", "Temp"] [] = ([], 0) :=
  ⟨by decide,
   C8_amended_nonexistent_root demoCfg fsTemp ["C:", "Windows", "Temp"] [] (by decide)⟩

/-- Counterexample to C9 as stated: a list holding one existing but
protected file.  The first call attempts no removal at all (the ghost
attempted counter equals removed, so it removed every file it attempted),
yet the second call does not report removed=0 and errors=0: the file
still exists, is rejected by the safety filter again, and errors is 1 on
both calls. -/
theorem C9_counterexample :
    (clean_files demoCfg fsExe ["C:\\Temp\\a.exe"]).attempted =
      (clean_files demoCfg fsExe ["C:\\Temp\\a.exe"]).removed ∧
    (clean_files demoCfg (clean_files demoCfg fsExe ["C:\\Temp\\a.exe"]).fs
        ["C:\\Temp\\a.exe"]).errors = 1 ∧
    ¬((clean_files demoCfg (clean_files demoCfg fsExe ["C:\\Temp\\a.exe"]).fs
        ["C:\\Temp\\a.exe"]).removed = 0 ∧
      (clean_files demoCfg (clean_files demoCfg fsExe ["C:\\Temp\\a.exe"]).fs
        ["C:\\Temp\\a.exe"]).errors = 0) :=
  ⟨by decide, by decide, by decide⟩

/-- C9 as amended: if the first call reported no error (every removal it
attempted succeeded and nothing was rejected by the safety filter), then
a second call on the same list reports removed=0 and errors=0, every
listed path having been removed or already absent. -/
theorem C9_amended_idempotent (cfg : Config) (fs : FS) (files : List String)
    (hwf : wfFS fs = true)
    (herr : (clean_files cfg fs files).errors = 0) :
    (clean_files cfg (clean_files cfg fs files).fs files).removed = 0 ∧
    (clean_files cfg (clean_files cfg fs files).fs files).errors = 0 := by
  have herr' : (files.foldl (cleanStep cfg) ⟨fs, 0, 0, 0, 0⟩).errors =
      (⟨fs, 0, 0, 0, 0⟩ : CleanState).errors := herr
  have hall := clean_no_error_gone cfg files ⟨fs, 0, 0, 0, 0⟩ hwf herr'
  have hid : clean_files cfg (clean_files cfg fs files).fs files =
      ⟨(clean_files cfg fs files).fs, 0, 0, 0, 0⟩ :=
    clean_all_gone cfg files ⟨(clean_files cfg fs files).fs, 0, 0, 0, 0⟩
      (fun s hs => hall s hs)
  rw [hid]
  exact ⟨rfl, rfl⟩

/-- Witness for C9: after an error-free demo clean, repeating it reports
removed=0 and errors=0. -/
theorem C9_witness :
    wfFS fsClean = true ∧
    (clean_files demoCfg fsClean ["C:\\Temp\\f1.txt"]).errors = 0 ∧
    (clean_files demoCfg (clean_files demoCfg fsClean ["C:\\Temp\\f1.txt"]).fs
        ["C:\\Temp\\f1.txt"]).removed = 0 ∧
    (clean_files demoCfg (clean_files demoCfg fsClean ["C:\\Temp\\f1.txt"]).fs
        ["C:\\Temp\\f1.txt"]).errors = 0 := by
  refine ⟨by decide, by decide, ?_, ?_⟩
  · exact (C9_amended_idempotent demoCfg fsClean ["C:\\Temp\\f1.txt"]
      (by decide) (by decide)).1
  · exact (C9_amended_idempotent demoCfg fsClean ["C:\\Temp\\f1.txt"]
      (by decide) (by decide)).2

/-- C10: get_file_size is total and non-negative by construction (it is a
Nat-valued function), returns 0 for a nonexistent path and for a file
whose metadata cannot be read, and a scanned file with unreadable
metadata still appears in the scan list while contributing 0 bytes. -/
theorem C10_get_file_size_total :
    (∀ (fs : FS) (p : FPath), pathExists fs p = false → get_file_size fs p = 0) ∧
    (∀ (fs : FS) (p : FPath), isFile fs p = true → statOf fs p = none →
        get_file_size fs p = 0) ∧
    scan_category demoCfg fsLocked "temp_user" = (["C:\\Temp\\locked.dat"], 0) := by
  refine ⟨?_, ?_, by decide⟩
  · intro fs p hex
    have h1 : isFile fs p = false := by
      cases h : isFile fs p
      · rfl
      · simp [pathExists, h] at hex
    have h2 : isDir fs p = false := by
      cases h : isDir fs p
      · rfl
      · simp [pathExists, h] at hex
    simp [get_file_size, h1, h2]
  · intro fs p hf hstat
    simp [get_file_size, hf, hstat]

/-- Witness for C10: a missing path sizes to 0, and the unreadable demo
file sizes to 0 while being a regular file. -/
theorem C10_witness :
    pathExists fsTemp ["C:", "Temp", "ghost.txt"] = false ∧
    get_file_size fsTemp ["C:", "Temp", "ghost.txt"] = 0 ∧
    isFile fsLocked ["C:", "Temp", "locked.dat"] = true ∧
    statOf fsLocked ["C:", "Temp", "locked.dat"] = none ∧
    get_file_size fsLocked ["C:", "Temp", "locked.dat"] = 0 :=
  ⟨by decide, C10_get_file_size_total.1 fsTemp ["C:", "Temp", "ghost.txt"] (by decide),
   by decide, by decide,
   C10_get_file_size_total.2.1 fsLocked ["C:", "Temp", "locked.dat"]
     (by decide) (by decide)⟩

end Limpeza
